import Mathlib

/-!
Verification development for `osc.py`, a pipeline that associates UPRN
address points with the CityJSON building polygons containing them.

The Python source is shallowly embedded as follows:
* CityJSON `boundaries` arrays (nested lists of integers) become the
  inductive type `BElem`; Python list indexing (including negative
  indices) becomes `pyGet`; the recursive `get_exterior_ring` is
  translated clause by clause, with the Shapely `Polygon` constructor
  modelled by `mkPolygon` (it rejects a nonempty ring of fewer than
  three coordinates and accepts an empty one).
* The CityJSON document (`cm.j`) becomes `CityModel`: an EPSG tag, the
  shared vertex table, and the `CityObjects` mapping as an ordered
  association list.  Optional JSON keys (`"geometry"`, `"attributes"`)
  are `Option` fields; a Python `KeyError`/`IndexError`/`TypeError` is a
  `none`/`Except.error` outcome.
* `load_uprn` builds points from the LONGITUDE/LATITUDE columns and
  applies `to_crs`, here parameterised by the forward EPSG:4326→3857
  transform `fwd` (the numeric transform itself is an external
  collaborator).  `load_buildings` only sets the EPSG tag.
* `uprn.sjoin(gdf, predicate="within")` followed by
  `groupby("id")["UPRN"].apply(list)` becomes `sjoinWithin` (left rows
  in supplied order, matching right rows nested) and `groupGet`; the
  containment predicate is a parameter, matching the abstraction
  boundary of the design.  `Series.get` becomes `pySeriesGet` (a key is
  absent exactly when no row matched) and `x or []` becomes `pyOrList`.
* The merge loop `co["attributes"]["uprn"] = joined.get(co_id) or []`
  becomes `updateCityObjects` / `mergeStep`; Python dict assignment is
  `dictSet` (replace in place when the key exists, append otherwise).
-/

namespace Osc

/-- A CityJSON vertex: a coordinate triple. -/
abbrev Vertex := Int × Int × Int

/-- A resolved exterior ring: an ordered list of coordinates. -/
abbrev Poly := List Vertex

/-- An element of a CityJSON `boundaries` array: either an integer
vertex index or a nested array of further elements. -/
inductive BElem where
  | idx (i : Int)
  | lst (l : List BElem)

/-- Python list indexing `xs[i]`: non-negative indices count from the
front, indices in `[-len, -1]` count from the back, anything else is an
`IndexError` (`none`). -/
def pyGet {α : Type} (xs : List α) (i : Int) : Option α :=
  if 0 ≤ i then xs.get? i.toNat
  else if 0 ≤ (xs.length : Int) + i then xs.get? ((xs.length : Int) + i).toNat
  else none

/-- The comprehension `[vertices[index] for index in boundaries]`: every
element must be an integer index (a nested list raises `TypeError`) and
every lookup must succeed. -/
def lookupAll (v : List Vertex) : List BElem → Option (List Vertex)
  | [] => some []
  | BElem.idx i :: rest =>
    match pyGet v i, lookupAll v rest with
    | some c, some cs => some (c :: cs)
    | _, _ => none
  | BElem.lst _ :: _ => none

/-- The Shapely `Polygon` constructor: an empty coordinate sequence
yields the empty polygon, a nonempty one needs at least three points. -/
def mkPolygon (coords : List Vertex) : Option Poly :=
  if coords.isEmpty then some []
  else if coords.length < 3 then none
  else some coords

/-- `get_exterior_ring(vertices, boundaries)` from `osc.py`: if the
first element of `boundaries` is a list, recurse on it (an empty
`boundaries` raises `IndexError` at `boundaries[0]`); otherwise look
every element up in the vertex table and build the polygon. -/
def get_exterior_ring (v : List Vertex) : List BElem → Option Poly
  | [] => none
  | BElem.lst l :: _ => get_exterior_ring v l
  | BElem.idx i :: rest => (lookupAll v (BElem.idx i :: rest)).bind mkPolygon

/-- The leaf list reached by repeatedly descending into element 0 while
that element is a list. -/
def firstDescent : List BElem → List BElem
  | BElem.lst l :: _ => firstDescent l
  | bs => bs

/-- Read a leaf list as a list of integer indices; `none` when some
element is itself a list. -/
def leafIndices : List BElem → Option (List Int)
  | [] => some []
  | BElem.idx i :: rest => (leafIndices rest).map (fun is => i :: is)
  | BElem.lst _ :: _ => none

/-- Wrap a boundary reference in `n` single-element list layers. -/
def wrapN : Nat → List BElem → List BElem
  | 0, b => b
  | n + 1, b => [BElem.lst (wrapN n b)]

/-- A JSON attribute value as stored in a CityObject attribute bag. -/
inductive JVal where
  | null
  | str (s : String)
  | num (n : Int)
  | strList (l : List String)

/-- One entry of a CityObject `geometry` array. -/
structure Geometry where
  type : String
  boundaries : List BElem

/-- A CityObject: its (optional) geometry array and its (optional)
attribute bag, each `none` when the JSON key is absent. -/
structure CityObject where
  geometry : Option (List Geometry)
  attributes : Option (List (String × JVal))

/-- The CityJSON document: EPSG tag, shared vertex table, and the
`CityObjects` mapping as an ordered association list. -/
structure CityModel where
  epsg : Int
  vertices : List Vertex
  cityObjects : List (String × CityObject)

/-- The fixed target coordinate reference system. -/
def TARGET_CRS : Int := 3857

/-- `cm.set_epsg(e)`: set the document's EPSG tag, nothing else. -/
def set_epsg (cm : CityModel) (e : Int) : CityModel :=
  { cm with epsg := e }

/-- `load_buildings` after parsing: the loaded document with its EPSG
tag set to the target system. -/
def load_buildings (cm : CityModel) : CityModel :=
  set_epsg cm TARGET_CRS

/-- A projected or geographic coordinate pair (x, y). -/
abbrev Pt2 := ℚ × ℚ

/-- One row of the UPRN CSV. -/
structure URow where
  UPRN : String
  LONGITUDE : ℚ
  LATITUDE : ℚ

/-- A GeoDataFrame: its rows, its geometry column, and its CRS tag. -/
structure GeoFrame where
  rows : List URow
  geometry : List Pt2
  crs : Int

/-- `gdf.to_crs(target)`: apply the forward transform `fwd` to every
geometry and retag the frame. -/
def to_crs (g : GeoFrame) (fwd : Pt2 → Pt2) (target : Int) : GeoFrame :=
  { g with geometry := g.geometry.map fwd, crs := target }

/-- `load_uprn` after `read_csv`: build a point from (LONGITUDE,
LATITUDE) for each row, tag the frame EPSG:4326, and reproject it to
the target system via the forward transform `fwd`. -/
def load_uprn (fwd : Pt2 → Pt2) (df : List URow) : GeoFrame :=
  to_crs { rows := df, geometry := df.map (fun r => (r.LONGITUDE, r.LATITUDE)), crs := 4326 } fwd TARGET_CRS

/-- The loop body of `extract_geometry` over the `CityObjects` list:
read `co["geometry"][0]["type"]`, abort on anything but "MultiSurface",
otherwise resolve the exterior ring and emit one (id, polygon) row. -/
def extractObjects (v : List Vertex) : List (String × CityObject) → Except String (List (String × Poly))
  | [] => Except.ok []
  | (coId, co) :: rest =>
    match co.geometry with
    | none => Except.error "KeyError: geometry"
    | some geoms =>
      match geoms with
      | [] => Except.error "IndexError: geometry is empty"
      | g :: _ =>
        if g.type = "MultiSurface" then
          match get_exterior_ring v g.boundaries with
          | none => Except.error ("Cannot resolve boundaries of " ++ coId)
          | some poly =>
            match extractObjects v rest with
            | Except.error e => Except.error e
            | Except.ok tail => Except.ok ((coId, poly) :: tail)
        else Except.error ("Unexpected surface type: " ++ g.type)

/-- `extract_geometry(cm)`: one (identifier, polygon) row per
CityObject, or a fatal error. -/
def extract_geometry (cm : CityModel) : Except String (List (String × Poly)) :=
  extractObjects cm.vertices cm.cityObjects

/-- `uprn.sjoin(gdf, predicate="within")`, restricted to the columns the
pipeline uses: one (point id, polygon id) row per matching pair, left
rows in the order the points were supplied, matching polygons nested
within each point. -/
def sjoinWithin {P G : Type} (within : P → G → Bool) : List (String × P) → List (String × G) → List (String × String)
  | [], _ => []
  | q :: rest, polys =>
    (polys.filter (fun e => within q.2 e.2)).map (fun e => (q.1, e.1)) ++ sjoinWithin within rest polys

/-- `groupby("id")["UPRN"].apply(list)` read at key `d`: the point ids
of the rows carrying polygon id `d`, in row order. -/
def groupGet (rows : List (String × String)) (d : String) : List String :=
  (rows.filter (fun r => r.2 == d)).map Prod.fst

/-- `joined.get(d)` on the grouped Series: the key is present exactly
when some row matched polygon id `d`. -/
def pySeriesGet (rows : List (String × String)) (d : String) : Option (List String) :=
  if (groupGet rows d).isEmpty then none else some (groupGet rows d)

/-- Python `x or []` on an optional list. -/
def pyOrList : Option (List String) → List String
  | none => []
  | some l => if l.isEmpty then [] else l

/-- Python dict assignment `bag[k] = val`: replace the value in place
when the key exists, append the pair otherwise. -/
def dictSet (bag : List (String × JVal)) (k : String) (val : JVal) : List (String × JVal) :=
  if bag.any (fun p => p.1 == k) then bag.map (fun p => if p.1 == k then (k, val) else p)
  else bag ++ [(k, val)]

/-- The merge loop of `main`: for every CityObject set
`co["attributes"]["uprn"] = joined.get(co_id) or []`; a missing
`"attributes"` key is a `KeyError` (`none`). -/
def updateCityObjects (joined : List (String × String)) : List (String × CityObject) → Option (List (String × CityObject))
  | [] => some []
  | (coId, co) :: rest =>
    match co.attributes with
    | none => none
    | some bag =>
      match updateCityObjects joined rest with
      | none => none
      | some tail =>
        some ((coId, { co with attributes := some (dictSet bag "uprn" (JVal.strList (pyOrList (pySeriesGet joined coId)))) }) :: tail)

/-- The merge step applied to the whole document. -/
def mergeStep (joined : List (String × String)) (cm : CityModel) : Option CityModel :=
  match updateCityObjects joined cm.cityObjects with
  | none => none
  | some objs => some { cm with cityObjects := objs }

/-- Read one attribute of a CityObject, `none` when the bag or the key
is absent. -/
def attrGet (co : CityObject) (k : String) : Option JVal :=
  match co.attributes with
  | none => none
  | some bag => List.lookup k bag

/-- The `main` pipeline up to (and excluding) `cityjson.save`:
load and reproject the points, load the buildings, extract geometry,
spatial-join, and merge the grouped UPRN lists into the document. -/
def main (fwd : Pt2 → Pt2) (df : List URow) (cmRaw : CityModel) (within : Pt2 → Poly → Bool) : Except String CityModel :=
  let uprn := load_uprn fwd df
  let cm := load_buildings cmRaw
  match extract_geometry cm with
  | Except.error e => Except.error e
  | Except.ok gdf =>
    let pts := (uprn.rows.zip uprn.geometry).map (fun rp => (rp.1.UPRN, rp.2))
    let joined := sjoinWithin within pts gdf
    match mergeStep joined cm with
    | none => Except.error "KeyError: attributes"
    | some cmOut => Except.ok cmOut

/-- Concrete record used as a witness input: a building with one
pre-existing attribute. -/
def coBagIn : CityObject :=
  { geometry := none, attributes := some [("height", JVal.num 7)] }

/-- The record `coBagIn` after the merge assigned it an empty list. -/
def coBagOut : CityObject :=
  { geometry := none, attributes := some [("height", JVal.num 7), ("uprn", JVal.strList [])] }

/-- Concrete one-record document used as a witness input. -/
def cmBagIn : CityModel :=
  { epsg := 3857, vertices := [((1 : Int), (2 : Int), (3 : Int))],
    cityObjects := [("b1", coBagIn)] }

/-- The document `cmBagIn` after merging an empty join result. -/
def cmBagOut : CityModel :=
  { epsg := 3857, vertices := [((1 : Int), (2 : Int), (3 : Int))],
    cityObjects := [("b1", coBagOut)] }

/-- Concrete record used as a witness input: its geometry entry
carries the unsupported type tag "Solid". -/
def coSolid : CityObject :=
  { geometry := some [{ type := "Solid", boundaries := [] }], attributes := some [] }

/-- Concrete one-record document whose only building has geometry type
"Solid". -/
def cmSolid : CityModel :=
  { epsg := 3857, vertices := [], cityObjects := [("b1", coSolid)] }

/-! ### Resolver lemmas -/

/-- Resolving a boundary reference is the same as resolving the leaf
list reached by first descent. -/
theorem get_eq_firstDescent (v : List Vertex) (b : List BElem) :
    get_exterior_ring v b = get_exterior_ring v (firstDescent b) := by
  induction b using get_exterior_ring.induct v with
  | case1 => simp [firstDescent]
  | case2 l rest ih =>
    rw [show firstDescent (BElem.lst l :: rest) = firstDescent l from by simp [firstDescent]]
    simp [get_exterior_ring]
    exact ih
  | case3 i rest => simp [firstDescent]

/-- The first descent ends at an empty list or at a list headed by a
plain index. -/
theorem firstDescent_cases (b : List BElem) :
    firstDescent b = [] ∨ ∃ i r, firstDescent b = BElem.idx i :: r := by
  induction b using firstDescent.induct with
  | case1 l rest ih =>
    rw [show firstDescent (BElem.lst l :: rest) = firstDescent l from by simp [firstDescent]]
    exact ih
  | case2 bs h =>
    match bs, h with
    | [], _ => exact Or.inl (by simp [firstDescent])
    | BElem.idx i :: r, _ => exact Or.inr ⟨i, r, by simp [firstDescent]⟩
    | BElem.lst l :: r, h => exact ((h l r) rfl).elim

/-- Python list lookup fails exactly on indices outside `[-len, len)`. -/
theorem pyGet_none_iff {α : Type} (xs : List α) (j : Int) :
    pyGet xs j = none ↔ ((xs.length : Int) ≤ j ∨ j < -(xs.length : Int)) := by
  unfold pyGet
  by_cases h0 : 0 ≤ j
  · rw [if_pos h0, List.get?_eq_getElem?, List.getElem?_eq_none_iff]
    omega
  · rw [if_neg h0]
    by_cases h1 : 0 ≤ (xs.length : Int) + j
    · rw [if_pos h1, List.get?_eq_getElem?, List.getElem?_eq_none_iff]
      omega
    · rw [if_neg h1]
      simp
      omega

/-- Python list lookup at an in-range non-negative index. -/
theorem pyGet_in_range (v : List Vertex) (i : Int) (h0 : 0 ≤ i) (h1 : i < (v.length : Int)) :
    pyGet v i = some (v.getD i.toNat ((0 : Int), (0 : Int), (0 : Int))) := by
  have hlt : i.toNat < v.length := by omega
  rw [pyGet, if_pos h0, List.get?_eq_getElem?, List.getElem?_eq_getElem hlt,
    List.getD_eq_getElem v _ hlt]

/-- Python list lookup at a negative in-range index counts from the
back of the list. -/
theorem pyGet_neg {α : Type} (xs : List α) (i : Int)
    (h1 : -(xs.length : Int) ≤ i) (h2 : i < 0) :
    pyGet xs i = xs.get? ((xs.length : Int) + i).toNat := by
  have h0 : ¬ 0 ≤ i := by omega
  have h3 : 0 ≤ (xs.length : Int) + i := by omega
  rw [pyGet, if_neg h0, if_pos h3]

/-- A leaf list read as indices has the same length as its index list. -/
theorem leafIndices_length (bs : List BElem) (is : List Int)
    (h : leafIndices bs = some is) : bs.length = is.length := by
  induction bs generalizing is with
  | nil =>
    simp [leafIndices] at h
    subst h
    rfl
  | cons e rest ih =>
    cases e with
    | idx i =>
      simp [leafIndices, Option.map_eq_some'] at h
      obtain ⟨tl, htl, his⟩ := h
      subst his
      simp [ih tl htl]
    | lst l => simp [leafIndices] at h

/-- The Shapely constructor on a ring of at least three coordinates. -/
theorem mkPolygon_of_three (cs : List Vertex) (h : 3 ≤ cs.length) :
    mkPolygon cs = some cs := by
  have h1 : cs.isEmpty = false := by
    cases cs with
    | nil => simp at h
    | cons a l => rfl
  unfold mkPolygon
  rw [h1]
  simp only [Bool.false_eq_true, if_false]
  rw [if_neg (by omega)]

/-- The index-lookup comprehension on an all-index, in-range leaf list
returns exactly the named vertex-table entries, in order. -/
theorem lookupAll_eq_map (v : List Vertex) (bs : List BElem) (is : List Int)
    (h : leafIndices bs = some is) (hr : ∀ i ∈ is, 0 ≤ i ∧ i < (v.length : Int)) :
    lookupAll v bs = some (is.map (fun i => v.getD i.toNat ((0 : Int), (0 : Int), (0 : Int)))) := by
  induction bs generalizing is with
  | nil =>
    simp [leafIndices] at h
    subst h
    simp [lookupAll]
  | cons e rest ih =>
    cases e with
    | idx i =>
      simp [leafIndices, Option.map_eq_some'] at h
      obtain ⟨tl, htl, his⟩ := h
      subst his
      have hi := hr i (by simp)
      have hrec := ih tl htl (fun j hj => hr j (by simp [hj]))
      simp [lookupAll, hrec, pyGet_in_range v i hi.1 hi.2]
    | lst l => simp [leafIndices] at h

/-- The comprehension fails whenever some element's lookup fails. -/
theorem lookupAll_none_of_mem (v : List Vertex) (bs : List BElem) (i : Int)
    (hm : BElem.idx i ∈ bs) (hn : pyGet v i = none) :
    lookupAll v bs = none := by
  induction bs with
  | nil => simp at hm
  | cons e rest ih =>
    cases e with
    | idx j =>
      rcases List.mem_cons.mp hm with he | ht
      · have hji : j = i := by
          injection he.symm
        subst hji
        simp [lookupAll, hn]
      · rcases h2 : pyGet v j with _ | c <;> simp [lookupAll, h2, ih ht]
    | lst l => simp [lookupAll]

/-- The comprehension succeeds, preserving length, when every element
is an index whose lookup succeeds. -/
theorem lookupAll_isSome (v : List Vertex) (bs : List BElem)
    (h : ∀ e ∈ bs, ∃ k, e = BElem.idx k ∧ (pyGet v k).isSome) :
    ∃ cs, lookupAll v bs = some cs ∧ cs.length = bs.length := by
  induction bs with
  | nil => exact ⟨[], by simp [lookupAll]⟩
  | cons e rest ih =>
    obtain ⟨k, hek, hk⟩ := h e (by simp)
    subst hek
    obtain ⟨c, hc⟩ := Option.isSome_iff_exists.mp hk
    obtain ⟨cs, hcs, hlen⟩ := ih (fun e2 he2 => h e2 (by simp [he2]))
    exact ⟨c :: cs, by simp [lookupAll, hc, hcs], by simp [hlen]⟩

/-! ### Claims about the boundary resolver -/

/-- C1: for every vertex table and boundary reference whose
first-descent leaf list is a list of in-range indices of length at
least three, `get_exterior_ring` returns the polygon whose vertices are
exactly the named vertex-table entries, same count, same order. -/
theorem get_exterior_ring_resolves_leaf (v : List Vertex) (b : List BElem) (is : List Int)
    (hleaf : leafIndices (firstDescent b) = some is)
    (hlen : 3 ≤ is.length)
    (hrange : ∀ i ∈ is, 0 ≤ i ∧ i < (v.length : Int)) :
    get_exterior_ring v b = some (is.map (fun i => v.getD i.toNat ((0 : Int), (0 : Int), (0 : Int)))) := by
  rw [get_eq_firstDescent]
  have hlook := lookupAll_eq_map v (firstDescent b) is hleaf hrange
  have hblen := leafIndices_length _ _ hleaf
  rcases firstDescent_cases b with hfd | ⟨i, r, hfd⟩
  · rw [hfd] at hblen
    simp at hblen
    omega
  · rw [hfd] at hlook ⊢
    rw [show get_exterior_ring v (BElem.idx i :: r) =
        (lookupAll v (BElem.idx i :: r)).bind mkPolygon from by simp [get_exterior_ring]]
    rw [hlook, Option.some_bind]
    exact mkPolygon_of_three _ (by simp [hlen])

/-- Witness for C1: a boundary reference over a 4-vertex square. -/
theorem get_exterior_ring_resolves_leaf_witness :
    get_exterior_ring
      [((0 : Int), (0 : Int), (0 : Int)), ((2 : Int), (0 : Int), (0 : Int)),
       ((2 : Int), (2 : Int), (0 : Int)), ((0 : Int), (2 : Int), (0 : Int))]
      [BElem.lst [BElem.idx 0, BElem.idx 1, BElem.idx 2, BElem.idx 3]] =
    some [((0 : Int), (0 : Int), (0 : Int)), ((2 : Int), (0 : Int), (0 : Int)),
          ((2 : Int), (2 : Int), (0 : Int)), ((0 : Int), (2 : Int), (0 : Int))] := by
  have h := get_exterior_ring_resolves_leaf
    [((0 : Int), (0 : Int), (0 : Int)), ((2 : Int), (0 : Int), (0 : Int)),
     ((2 : Int), (2 : Int), (0 : Int)), ((0 : Int), (2 : Int), (0 : Int))]
    [BElem.lst [BElem.idx 0, BElem.idx 1, BElem.idx 2, BElem.idx 3]]
    [0, 1, 2, 3]
    (by simp [firstDescent, leafIndices]) (by simp) (by decide)
  simpa using h

/-- C2: wrapping a boundary reference in single-element list layers, to
any depth, does not change the resolved polygon. -/
theorem get_exterior_ring_nesting_invariant (v : List Vertex) (b : List BElem)
    (h : (get_exterior_ring v b).isSome) (n : Nat) :
    get_exterior_ring v (wrapN n b) = get_exterior_ring v b := by
  induction n with
  | zero => rfl
  | succ m ih =>
    rw [show wrapN (m + 1) b = [BElem.lst (wrapN m b)] from rfl]
    rw [show get_exterior_ring v [BElem.lst (wrapN m b)] =
        get_exterior_ring v (wrapN m b) from by simp [get_exterior_ring]]
    exact ih

/-- Witness for C2: `[[[0,1,2,3]]]` over a 4-vertex square resolves
identically to `[0,1,2,3]`. -/
theorem get_exterior_ring_nesting_invariant_witness :
    get_exterior_ring
      [((0 : Int), (0 : Int), (0 : Int)), ((2 : Int), (0 : Int), (0 : Int)),
       ((2 : Int), (2 : Int), (0 : Int)), ((0 : Int), (2 : Int), (0 : Int))]
      (wrapN 2 [BElem.idx 0, BElem.idx 1, BElem.idx 2, BElem.idx 3]) =
    get_exterior_ring
      [((0 : Int), (0 : Int), (0 : Int)), ((2 : Int), (0 : Int), (0 : Int)),
       ((2 : Int), (2 : Int), (0 : Int)), ((0 : Int), (2 : Int), (0 : Int))]
      [BElem.idx 0, BElem.idx 1, BElem.idx 2, BElem.idx 3] :=
  get_exterior_ring_nesting_invariant
    [((0 : Int), (0 : Int), (0 : Int)), ((2 : Int), (0 : Int), (0 : Int)),
     ((2 : Int), (2 : Int), (0 : Int)), ((0 : Int), (2 : Int), (0 : Int))]
    [BElem.idx 0, BElem.idx 1, BElem.idx 2, BElem.idx 3]
    (by simp [get_exterior_ring, lookupAll, pyGet, mkPolygon]) 2

/-- C6: the resolver fails fatally on an empty boundary reference, and
fails fatally whenever the reached leaf list names an index outside the
Python-valid range of the vertex table. -/
theorem get_exterior_ring_fatal_errors (v : List Vertex) (b : List BElem) (i : Int)
    (hmem : BElem.idx i ∈ firstDescent b)
    (hout : (v.length : Int) ≤ i ∨ i < -(v.length : Int)) :
    get_exterior_ring v b = none ∧ get_exterior_ring v [] = none := by
  refine ⟨?_, by simp [get_exterior_ring]⟩
  rw [get_eq_firstDescent]
  have hnone : pyGet v i = none := (pyGet_none_iff v i).mpr hout
  rcases firstDescent_cases b with hfd | ⟨j, r, hfd⟩
  · rw [hfd] at hmem
    simp at hmem
  · rw [hfd] at hmem ⊢
    rw [show get_exterior_ring v (BElem.idx j :: r) =
        (lookupAll v (BElem.idx j :: r)).bind mkPolygon from by simp [get_exterior_ring]]
    rw [lookupAll_none_of_mem v _ i hmem hnone]
    rfl

/-- Witness for C6: index 5 against a single-entry vertex table. -/
theorem get_exterior_ring_fatal_errors_witness :
    get_exterior_ring [((0 : Int), (0 : Int), (0 : Int))] [BElem.idx 5] = none ∧
    get_exterior_ring [((0 : Int), (0 : Int), (0 : Int))] [] = none :=
  get_exterior_ring_fatal_errors [((0 : Int), (0 : Int), (0 : Int))] [BElem.idx 5] 5
    (by simp [firstDescent]) (by norm_num)

/-- C7: a negative index in `[-n, 0)` silently selects the vertex at
position `n + i` counted from the end; lookup fails exactly outside
`[-n, n)`; and a leaf of at least three Python-valid indices resolves
without failure. -/
theorem get_exterior_ring_negative_index (v : List Vertex) (i : Int)
    (h1 : -(v.length : Int) ≤ i) (h2 : i < 0) :
    (pyGet v i = v.get? ((v.length : Int) + i).toNat ∧ (pyGet v i).isSome) ∧
    (∀ j : Int, pyGet v j = none ↔ ((v.length : Int) ≤ j ∨ j < -(v.length : Int))) ∧
    (∀ bs : List BElem, 3 ≤ bs.length →
      (∀ e ∈ bs, ∃ k : Int, e = BElem.idx k ∧ -(v.length : Int) ≤ k ∧ k < (v.length : Int)) →
      (get_exterior_ring v bs).isSome) := by
  refine ⟨⟨pyGet_neg v i h1 h2, ?_⟩, fun j => pyGet_none_iff v j, ?_⟩
  · rw [pyGet_neg v i h1 h2]
    have hlt : ((v.length : Int) + i).toNat < v.length := by omega
    simp [List.get?_eq_getElem?, List.getElem?_eq_getElem hlt]
  · intro bs hlen hall
    have hsome : ∀ e ∈ bs, ∃ k, e = BElem.idx k ∧ (pyGet v k).isSome := by
      intro e he
      obtain ⟨k, hk, hk1, hk2⟩ := hall e he
      refine ⟨k, hk, ?_⟩
      rw [← Option.ne_none_iff_isSome]
      intro hn
      rcases (pyGet_none_iff v k).mp hn with h | h <;> omega
    rcases bs with _ | ⟨e, rest⟩
    · simp at hlen
    · obtain ⟨k, hek, _⟩ := hsome e (by simp)
      subst hek
      rw [show get_exterior_ring v (BElem.idx k :: rest) =
          (lookupAll v (BElem.idx k :: rest)).bind mkPolygon from by simp [get_exterior_ring]]
      obtain ⟨cs, hcs, hcl⟩ := lookupAll_isSome v (BElem.idx k :: rest) hsome
      rw [hcs, Option.some_bind, mkPolygon_of_three cs (by rw [hcl]; exact hlen)]
      rfl

/-- Witness for C7: index `-1` against a 3-entry vertex table selects
the last entry. -/
theorem get_exterior_ring_negative_index_witness :
    pyGet [((0 : Int), (0 : Int), (0 : Int)), ((1 : Int), (0 : Int), (0 : Int)),
           ((2 : Int), (2 : Int), (0 : Int))] (-1) =
      some ((2 : Int), (2 : Int), (0 : Int)) := by
  have h := get_exterior_ring_negative_index
    [((0 : Int), (0 : Int), (0 : Int)), ((1 : Int), (0 : Int), (0 : Int)),
     ((2 : Int), (2 : Int), (0 : Int))] (-1) (by norm_num) (by norm_num)
  simpa using h.1.1

/-! ### Spatial join lemmas -/

/-- Grouping distributes over appending row blocks. -/
theorem groupGet_append (r1 r2 : List (String × String)) (d : String) :
    groupGet (r1 ++ r2) d = groupGet r1 d ++ groupGet r2 d := by
  simp [groupGet, List.filter_append]

/-- Rows produced against polygons none of which carries id `d`
contribute nothing to group `d`. -/
theorem sjoin_rows_no_id {P G : Type} (within : P → G → Bool) (u : String) (p : P)
    (polys : List (String × G)) (d : String) (hd : d ∉ polys.map Prod.fst) :
    ((polys.filter (fun e => within p e.2)).map (fun e => (u, e.1))).filter
      (fun r => r.2 == d) = [] := by
  induction polys with
  | nil => rfl
  | cons e rest ih =>
    simp only [List.map_cons, List.mem_cons] at hd
    push_neg at hd
    by_cases hw : within p e.2
    · simp only [List.filter_cons, hw, if_true, List.map_cons, List.filter_cons]
      rw [if_neg (by simpa using (hd.1 ∘ Eq.symm)), ih hd.2]
    · simp only [List.filter_cons, hw, if_false]
      exact ih hd.2

/-- The block of join rows one point contributes to group `d` is the
single row for polygon `(d, g)` exactly when the point lies within
`g`, provided polygon ids are unique. -/
theorem sjoin_head_filter {P G : Type} (within : P → G → Bool) (u : String) (p : P)
    (polys : List (String × G)) (d : String) (g : G)
    (hnd : (polys.map Prod.fst).Nodup) (hmem : (d, g) ∈ polys) :
    ((polys.filter (fun e => within p e.2)).map (fun e => (u, e.1))).filter
      (fun r => r.2 == d) = if within p g then [(u, d)] else [] := by
  induction polys with
  | nil => simp at hmem
  | cons e rest ih =>
    rw [List.map_cons, List.nodup_cons] at hnd
    rcases List.mem_cons.mp hmem with he | ht
    · subst he
      rw [List.filter_cons]
      by_cases hw : within p g
      · rw [if_pos (by simpa using hw), List.map_cons, List.filter_cons,
          if_pos (by simp), sjoin_rows_no_id within u p rest d hnd.1, if_pos hw]
      · rw [if_neg (by simpa using hw), sjoin_rows_no_id within u p rest d hnd.1,
          if_neg hw]
    · have hd : e.1 ≠ d := by
        intro hcontra
        exact hnd.1 (hcontra ▸ List.mem_map_of_mem Prod.fst ht)
      rw [List.filter_cons]
      by_cases hw : within p e.2
      · rw [if_pos (by simpa using hw), List.map_cons, List.filter_cons,
          if_neg (by simpa using hd)]
        exact ih hnd.2 ht
      · rw [if_neg (by simpa using hw)]
        exact ih hnd.2 ht

/-- C3: for every collection of points in some supplied order and every
polygon with a unique id, the grouped join list for that polygon is
exactly the ids of the points lying within it, in supplied order. -/
theorem sjoin_groupby_preserves_order {P G : Type} (within : P → G → Bool)
    (pts : List (String × P)) (polys : List (String × G)) (d : String) (g : G)
    (hnd : (polys.map Prod.fst).Nodup) (hmem : (d, g) ∈ polys) :
    groupGet (sjoinWithin within pts polys) d =
      (pts.filter (fun q => within q.2 g)).map Prod.fst := by
  induction pts with
  | nil => rfl
  | cons q rest ih =>
    rw [show sjoinWithin within (q :: rest) polys =
        (polys.filter (fun e => within q.2 e.2)).map (fun e => (q.1, e.1)) ++
          sjoinWithin within rest polys from rfl]
    rw [groupGet_append]
    have hh : groupGet ((polys.filter (fun e => within q.2 e.2)).map (fun e => (q.1, e.1))) d =
        if within q.2 g then [q.1] else [] := by
      unfold groupGet
      rw [sjoin_head_filter within q.1 q.2 polys d g hnd hmem]
      by_cases hw : within q.2 g <;> simp [hw]
    rw [hh, ih]
    by_cases hw : within q.2 g <;> simp [List.filter_cons, hw]

/-- Witness for C3: points P1, P2, P3 supplied in that order, all three
matching one polygon, group to exactly [P1, P2, P3]. -/
theorem sjoin_groupby_preserves_order_witness :
    groupGet (sjoinWithin (fun (p : Nat) (g : List Nat) => g.contains p)
      [("P1", 1), ("P2", 2), ("P3", 3)] [("B1", [1, 2, 3])]) "B1" =
      ["P1", "P2", "P3"] := by
  rw [sjoin_groupby_preserves_order (fun (p : Nat) (g : List Nat) => g.contains p)
    [("P1", 1), ("P2", 2), ("P3", 3)] [("B1", [1, 2, 3])] "B1" [1, 2, 3]
    (by simp) (by simp)]
  decide

/-! ### Attribute merge lemmas -/

/-- `x or []` on an optional list is just the list, defaulting to empty. -/
theorem pyOrList_eq_getD (x : Option (List String)) : pyOrList x = x.getD [] := by
  cases x with
  | none => rfl
  | some l => cases l <;> rfl

/-- `List.lookup` finds the head pair when the key matches. -/
theorem lookup_cons_self (a : String) (b : JVal) (l : List (String × JVal)) :
    List.lookup a ((a, b) :: l) = some b := by
  simp [List.lookup]

/-- `List.lookup` skips the head pair when the key differs. -/
theorem lookup_cons_ne (a c : String) (b : JVal) (l : List (String × JVal)) (h : a ≠ c) :
    List.lookup a ((c, b) :: l) = List.lookup a l := by
  simp [List.lookup, beq_eq_false_iff_ne.mpr h]

/-- Looking up the assigned key after a dict assignment whose key was
already present. -/
theorem lookup_map_set_self (bag : List (String × JVal)) (k : String) (val : JVal)
    (hex : bag.any (fun p => p.1 == k) = true) :
    List.lookup k (bag.map (fun p => if p.1 == k then (k, val) else p)) = some val := by
  induction bag with
  | nil => simp at hex
  | cons p rest ih =>
    obtain ⟨pk, pv⟩ := p
    rw [List.map_cons]
    by_cases hpk : pk = k
    · rw [if_pos (by simpa using hpk)]
      exact lookup_cons_self k val _
    · have h1 : (pk == k) = false := beq_eq_false_iff_ne.mpr hpk
      rw [if_neg (by simpa using hpk)]
      rw [lookup_cons_ne k pk pv _ (fun heq => hpk heq.symm)]
      simp only [List.any_cons, h1, Bool.false_or] at hex
      exact ih hex

/-- Looking up the assigned key after a dict assignment that appended
the key. -/
theorem lookup_append_self (bag : List (String × JVal)) (k : String) (val : JVal)
    (hex : bag.any (fun p => p.1 == k) = false) :
    List.lookup k (bag ++ [(k, val)]) = some val := by
  induction bag with
  | nil =>
    rw [List.nil_append]
    exact lookup_cons_self k val []
  | cons p rest ih =>
    obtain ⟨pk, pv⟩ := p
    simp only [List.any_cons, Bool.or_eq_false_iff] at hex
    rw [List.cons_append,
      lookup_cons_ne k pk pv _ (Ne.symm (beq_eq_false_iff_ne.mp hex.1))]
    exact ih hex.2

/-- After Python dict assignment `bag[k] = val`, reading `k` gives
`val`. -/
theorem dictSet_lookup_self (bag : List (String × JVal)) (k : String) (val : JVal) :
    List.lookup k (dictSet bag k val) = some val := by
  unfold dictSet
  by_cases hex : bag.any (fun p => p.1 == k) = true
  · rw [if_pos hex]
    exact lookup_map_set_self bag k val hex
  · rw [if_neg hex]
    exact lookup_append_self bag k val (Bool.eq_false_iff.mpr hex)

/-- The in-place replacement branch of dict assignment leaves every
other key's value unchanged. -/
theorem lookup_map_set_other (bag : List (String × JVal)) (k kq : String) (val : JVal)
    (hne : kq ≠ k) :
    List.lookup kq (bag.map (fun p => if p.1 == k then (k, val) else p)) =
      List.lookup kq bag := by
  induction bag with
  | nil => rfl
  | cons p rest ih =>
    obtain ⟨pk, pv⟩ := p
    rw [List.map_cons]
    by_cases hpk : pk = k
    · rw [if_pos (by simpa using hpk)]
      rw [lookup_cons_ne kq k val _ hne,
        lookup_cons_ne kq pk pv _ (fun heq => hne (heq.trans hpk))]
      exact ih
    · rw [if_neg (by simpa using hpk)]
      by_cases hqp : kq = pk
      · subst hqp
        rw [lookup_cons_self kq pv _, lookup_cons_self kq pv _]
      · rw [lookup_cons_ne kq pk pv _ hqp, lookup_cons_ne kq pk pv _ hqp]
        exact ih

/-- The appending branch of dict assignment leaves every other key's
value unchanged. -/
theorem lookup_append_other (bag : List (String × JVal)) (k kq : String) (val : JVal)
    (hne : kq ≠ k) :
    List.lookup kq (bag ++ [(k, val)]) = List.lookup kq bag := by
  induction bag with
  | nil =>
    rw [List.nil_append, lookup_cons_ne kq k val [] hne]
  | cons p rest ih =>
    obtain ⟨pk, pv⟩ := p
    by_cases hqp : kq = pk
    · subst hqp
      rw [List.cons_append, lookup_cons_self kq pv _, lookup_cons_self kq pv _]
    · rw [List.cons_append, lookup_cons_ne kq pk pv _ hqp, lookup_cons_ne kq pk pv _ hqp]
      exact ih

/-- Python dict assignment `bag[k] = val` leaves every other key's
value unchanged. -/
theorem dictSet_lookup_other (bag : List (String × JVal)) (k kq : String) (val : JVal)
    (hne : kq ≠ k) :
    List.lookup kq (dictSet bag k val) = List.lookup kq bag := by
  unfold dictSet
  by_cases hex : bag.any (fun p => p.1 == k) = true
  · rw [if_pos hex]
    exact lookup_map_set_other bag k kq val hne
  · rw [if_neg hex]
    exact lookup_append_other bag k kq val hne

/-- The merge loop succeeds exactly when every record carries an
attribute bag. -/
theorem updateCityObjects_isSome (joined : List (String × String)) :
    ∀ objs : List (String × CityObject),
      (updateCityObjects joined objs).isSome = true ↔
        ∀ p ∈ objs, p.2.attributes.isSome = true := by
  intro objs
  induction objs with
  | nil => simp [updateCityObjects]
  | cons p rest ih =>
    obtain ⟨coId, co⟩ := p
    unfold updateCityObjects
    rcases hat : co.attributes with _ | bag
    · simp [hat]
    · rcases hrec : updateCityObjects joined rest with _ | tail
      · rw [hrec] at ih
        simp only [Option.isSome_none, Bool.false_eq_true, false_iff, not_forall] at ih
        simp only [Option.isSome_none, Bool.false_eq_true, false_iff, not_forall]
        obtain ⟨q, hq, hqa⟩ := ih
        exact ⟨q, by simp [hq], hqa⟩
      · rw [hrec] at ih
        simp only [Option.isSome_some, true_iff] at ih
        simp only [Option.isSome_some, true_iff]
        intro q hq
        rcases List.mem_cons.mp hq with he | ht
        · subst he
          simp [hat]
        · exact ih q ht

/-- On success, the merge loop preserves the record ids, in order. -/
theorem updateCityObjects_ids (joined : List (String × String)) :
    ∀ objs objsNew, updateCityObjects joined objs = some objsNew →
      objsNew.map Prod.fst = objs.map Prod.fst := by
  intro objs
  induction objs with
  | nil =>
    intro objsNew h
    simp [updateCityObjects] at h
    subst h
    rfl
  | cons p rest ih =>
    intro objsNew h
    obtain ⟨coId, co⟩ := p
    unfold updateCityObjects at h
    rcases hat : co.attributes with _ | bag
    · rw [hat] at h
      simp at h
    · rw [hat] at h
      rcases hrec : updateCityObjects joined rest with _ | tail
      · rw [hrec] at h
        simp at h
      · rw [hrec] at h
        simp only [Option.some.injEq] at h
        subst h
        simp [ih tail hrec]

/-- On success, every output record is its input record with exactly
the dict assignment `bag["uprn"] = joined.get(id) or []` applied. -/
theorem updateCityObjects_pointwise (joined : List (String × String)) :
    ∀ objs objsNew, updateCityObjects joined objs = some objsNew →
      ∀ pq ∈ objs.zip objsNew,
        pq.2.1 = pq.1.1 ∧ pq.2.2.geometry = pq.1.2.geometry ∧
        ∃ bag, pq.1.2.attributes = some bag ∧
          pq.2.2.attributes = some (dictSet bag "uprn"
            (JVal.strList (pyOrList (pySeriesGet joined pq.1.1)))) := by
  intro objs
  induction objs with
  | nil =>
    intro objsNew h pq hpq
    simp [updateCityObjects] at h
    subst h
    simp at hpq
  | cons p rest ih =>
    intro objsNew h pq hpq
    obtain ⟨coId, co⟩ := p
    unfold updateCityObjects at h
    rcases hat : co.attributes with _ | bag
    · rw [hat] at h
      simp at h
    · rw [hat] at h
      rcases hrec : updateCityObjects joined rest with _ | tail
      · rw [hrec] at h
        simp at h
      · rw [hrec] at h
        simp only [Option.some.injEq] at h
        subst h
        rcases List.mem_cons.mp hpq with he | ht
        · subst he
          exact ⟨rfl, rfl, bag, hat, rfl⟩
        · exact ih tail hrec pq ht

/-- On success, every output record carries the bag of its input
record, ids aligned positionally (derived membership form). -/
theorem updateCityObjects_mem (joined : List (String × String)) :
    ∀ objs objsNew, updateCityObjects joined objs = some objsNew →
      ∀ p ∈ objsNew, ∃ bag, p.2.attributes =
        some (dictSet bag "uprn" (JVal.strList (pyOrList (pySeriesGet joined p.1)))) := by
  intro objs
  induction objs with
  | nil =>
    intro objsNew h p hp
    simp [updateCityObjects] at h
    subst h
    simp at hp
  | cons q rest ih =>
    intro objsNew h p hp
    obtain ⟨coId, co⟩ := q
    unfold updateCityObjects at h
    rcases hat : co.attributes with _ | bag
    · rw [hat] at h
      simp at h
    · rw [hat] at h
      rcases hrec : updateCityObjects joined rest with _ | tail
      · rw [hrec] at h
        simp at h
      · rw [hrec] at h
        simp only [Option.some.injEq] at h
        subst h
        rcases List.mem_cons.mp hp with he | ht
        · subst he
          exact ⟨bag, rfl⟩
        · exact ih tail hrec p ht

/-! ### Claims about the attribute merger -/

/-- C4: whenever the merge step completes, every building record in
the output has the "uprn" attribute present and set to the join
result's list for its id when one exists, else to the empty list; the
record ids are all preserved, none skipped. -/
theorem merge_totality (joined : List (String × String)) (cm cmOut : CityModel)
    (h : mergeStep joined cm = some cmOut) :
    cmOut.cityObjects.map Prod.fst = cm.cityObjects.map Prod.fst ∧
    ∀ p ∈ cmOut.cityObjects, ∃ bag, p.2.attributes = some bag ∧
      List.lookup "uprn" bag =
        some (JVal.strList ((pySeriesGet joined p.1).getD [])) := by
  unfold mergeStep at h
  rcases hupd : updateCityObjects joined cm.cityObjects with _ | objsNew
  · rw [hupd] at h
    simp at h
  · rw [hupd] at h
    simp only [Option.some.injEq] at h
    subst h
    refine ⟨updateCityObjects_ids joined cm.cityObjects objsNew hupd, ?_⟩
    intro p hp
    obtain ⟨bag, hbag⟩ := updateCityObjects_mem joined cm.cityObjects objsNew hupd p hp
    refine ⟨dictSet bag "uprn" (JVal.strList (pyOrList (pySeriesGet joined p.1))), hbag, ?_⟩
    rw [dictSet_lookup_self, pyOrList_eq_getD]

/-- Witness for C4: a single record with a pre-existing attribute bag
and no matching addresses ends with `"uprn"` set to the empty list. -/
theorem merge_totality_witness :
    ∃ bag, coBagOut.attributes = some bag ∧
      List.lookup "uprn" bag =
        some (JVal.strList ((pySeriesGet [] "b1").getD [])) :=
  (merge_totality [] cmBagIn cmBagOut (by rfl)).2
    ("b1", coBagOut) (by simp [cmBagOut])

/-- C8: the merge step changes nothing but the "uprn" attribute: the
vertex table, the EPSG tag, the record ids, each record's geometry and
every other attribute are untouched. -/
theorem merge_frame_condition (joined : List (String × String)) (cm cmOut : CityModel)
    (h : mergeStep joined cm = some cmOut) :
    cmOut.vertices = cm.vertices ∧ cmOut.epsg = cm.epsg ∧
    cmOut.cityObjects.map Prod.fst = cm.cityObjects.map Prod.fst ∧
    ∀ pq ∈ cm.cityObjects.zip cmOut.cityObjects,
      pq.2.2.geometry = pq.1.2.geometry ∧
      ∀ key, key ≠ "uprn" → attrGet pq.2.2 key = attrGet pq.1.2 key := by
  unfold mergeStep at h
  rcases hupd : updateCityObjects joined cm.cityObjects with _ | objsNew
  · rw [hupd] at h
    simp at h
  · rw [hupd] at h
    simp only [Option.some.injEq] at h
    subst h
    refine ⟨rfl, rfl, updateCityObjects_ids joined cm.cityObjects objsNew hupd, ?_⟩
    intro pq hpq
    obtain ⟨_, hgeo, bag, hbagOld, hbagNew⟩ :=
      updateCityObjects_pointwise joined cm.cityObjects objsNew hupd pq hpq
    refine ⟨hgeo, ?_⟩
    intro key hkey
    simp only [attrGet, hbagOld, hbagNew]
    exact dictSet_lookup_other bag "uprn" key _ hkey

/-- Witness for C8: merging an empty join result into a one-record
document preserves the vertex table, the EPSG tag and the ids. -/
theorem merge_frame_condition_witness :
    cmBagOut.vertices = cmBagIn.vertices ∧ cmBagOut.epsg = cmBagIn.epsg ∧
    cmBagOut.cityObjects.map Prod.fst = cmBagIn.cityObjects.map Prod.fst := by
  have h := merge_frame_condition [] cmBagIn cmBagOut (by rfl)
  exact ⟨h.1, h.2.1, h.2.2.1⟩

/-- C10: the merge step succeeds exactly when every building record
already carries an attribute bag; a record without one makes the whole
merge fail with a lookup error instead of creating the bag. -/
theorem merge_requires_attribute_bags (joined : List (String × String)) (cm : CityModel) :
    (mergeStep joined cm).isSome = true ↔
      ∀ p ∈ cm.cityObjects, p.2.attributes.isSome = true := by
  rw [← updateCityObjects_isSome joined cm.cityObjects]
  unfold mergeStep
  rcases hupd : updateCityObjects joined cm.cityObjects with _ | objsNew <;> simp

/-! ### Geometry extraction lemmas -/

/-- The extraction loop errors whenever some record's first geometry
entry carries a type tag other than "MultiSurface". -/
theorem extractObjects_error_of_mismatch (v : List Vertex) :
    ∀ objs : List (String × CityObject),
      (∃ p ∈ objs, ∃ g gs, p.2.geometry = some (g :: gs) ∧ g.type ≠ "MultiSurface") →
      ∃ e, extractObjects v objs = Except.error e := by
  intro objs
  induction objs with
  | nil =>
    intro h
    simp at h
  | cons q rest ih =>
    intro h
    obtain ⟨coId, co⟩ := q
    obtain ⟨geo, attrs⟩ := co
    rcases geo with _ | geoms
    · exact ⟨"KeyError: geometry", rfl⟩
    · rcases geoms with _ | ⟨g, gs⟩
      · exact ⟨"IndexError: geometry is empty", rfl⟩
      · simp only [extractObjects]
        by_cases hty : g.type = "MultiSurface"
        · rw [if_pos hty]
          have hrest : ∃ p ∈ rest, ∃ g2 gs2,
              p.2.geometry = some (g2 :: gs2) ∧ g2.type ≠ "MultiSurface" := by
            obtain ⟨p, hp, g2, gs2, hpg, hpt⟩ := h
            rcases List.mem_cons.mp hp with he | ht
            · subst he
              simp only [Option.some.injEq, List.cons.injEq] at hpg
              exact absurd hty (hpg.1 ▸ hpt)
            · exact ⟨p, ht, g2, gs2, hpg, hpt⟩
          obtain ⟨e, he⟩ := ih hrest
          rcases hres : get_exterior_ring v g.boundaries with _ | poly
          · exact ⟨_, rfl⟩
          · rw [he]
            exact ⟨e, rfl⟩
        · rw [if_neg hty]
          exact ⟨_, rfl⟩

/-- On success, the extraction yields exactly one row per record, ids
in document order. -/
theorem extractObjects_ok_ids (v : List Vertex) :
    ∀ objs out, extractObjects v objs = Except.ok out →
      out.map Prod.fst = objs.map Prod.fst := by
  intro objs
  induction objs with
  | nil =>
    intro out h
    simp only [extractObjects, Except.ok.injEq] at h
    subst h
    rfl
  | cons q rest ih =>
    intro out h
    obtain ⟨coId, co⟩ := q
    obtain ⟨geo, attrs⟩ := co
    rcases geo with _ | geoms
    · simp [extractObjects] at h
    · rcases geoms with _ | ⟨g, gs⟩
      · simp [extractObjects] at h
      · simp only [extractObjects] at h
        by_cases hty : g.type = "MultiSurface"
        · rw [if_pos hty] at h
          rcases hres : get_exterior_ring v g.boundaries with _ | poly
          · rw [hres] at h
            simp at h
          · rw [hres] at h
            rcases hrec : extractObjects v rest with e | tail
            · rw [hrec] at h
              simp at h
            · rw [hrec] at h
              simp only [Except.ok.injEq] at h
              subst h
              simp [ih tail hrec]
        · rw [if_neg hty] at h
          simp at h

/-- A fatal extraction error aborts `main` before the spatial join. -/
theorem main_error_of_extract_error (fwd : Pt2 → Pt2) (df : List URow) (cmRaw : CityModel)
    (within : Pt2 → Poly → Bool) (e : String)
    (h : extract_geometry (load_buildings cmRaw) = Except.error e) :
    main fwd df cmRaw within = Except.error e := by
  simp only [main]
  rw [h]

/-! ### Claims about extraction and loading -/

/-- C5: a single record whose geometry type tag differs from
"MultiSurface" makes the whole extraction abort with an error (and an
aborted extraction aborts `main` before any join); on success every
record yields exactly one (identifier, polygon) pair. -/
theorem extract_geometry_fail_fast (cm : CityModel) :
    ((∃ p ∈ cm.cityObjects, ∃ g gs, p.2.geometry = some (g :: gs) ∧ g.type ≠ "MultiSurface") →
      ∃ e, extract_geometry cm = Except.error e) ∧
    (∀ out, extract_geometry cm = Except.ok out →
      out.map Prod.fst = cm.cityObjects.map Prod.fst) ∧
    (∀ fwd df cmRaw within e, extract_geometry (load_buildings cmRaw) = Except.error e →
      main fwd df cmRaw within = Except.error e) :=
  ⟨fun h => extractObjects_error_of_mismatch cm.vertices cm.cityObjects h,
    fun out h => extractObjects_ok_ids cm.vertices cm.cityObjects out h,
    fun fwd df cmRaw within e h => main_error_of_extract_error fwd df cmRaw within e h⟩

/-- Witness for C5: scenario D, a building with geometry type "Solid"
aborts the extraction. -/
theorem extract_geometry_fail_fast_witness :
    ∃ e, extract_geometry cmSolid = Except.error e :=
  (extract_geometry_fail_fast cmSolid).1
    ⟨("b1", coSolid), by simp [cmSolid], { type := "Solid", boundaries := [] }, [],
      by simp [coSolid], by decide⟩

/-- C9: loading the building dataset only sets its EPSG tag to the
target system — the vertex table and the records are numerically
untouched — whereas loading the addresses runs every point through the
forward reprojection to the same target system. -/
theorem reprojector_asymmetry (cm : CityModel) (fwd : Pt2 → Pt2) (df : List URow) :
    (load_buildings cm).vertices = cm.vertices ∧
    (load_buildings cm).cityObjects = cm.cityObjects ∧
    (load_buildings cm).epsg = TARGET_CRS ∧
    (load_uprn fwd df).geometry = df.map (fun r => fwd (r.LONGITUDE, r.LATITUDE)) ∧
    (load_uprn fwd df).crs = TARGET_CRS := by
  refine ⟨rfl, rfl, rfl, ?_, rfl⟩
  simp [load_uprn, to_crs]

end Osc
